import Mathlib

/-!
Verification of the change-detection core of `hotKTbot.py`.

The Python source is shallowly embedded: every function below is a direct
translation of the corresponding Python code.  String processing is modelled
over `List Char` with structural recursion so that every definition is
executable and kernel-reducible.  Python `datetime` values are modelled as
proleptic-Gregorian ordinals scaled to seconds (`dateSecs`), and the ambient
clock `datetime.now()` becomes an explicit parameter `now : Int` measured in
the same unit.  Exceptions that the source catches are modelled by `Option`
or by returning the caught-branch value directly.
-/

namespace HotKTbot

/-- One obituary record: `{'name': name, 'date': dates}` in the source. -/
structure Entry where
  name : String
  date : String
deriving DecidableEq, Repr

/-! ### Character-level string utilities

These model the Python string primitives used by the source
(`in`, `split(sep)`, `split(sep, 1)`, `split()`, `strip()`, `lower()`, `len`).
They are defined over `List Char` by structural recursion so that they
evaluate inside the kernel.
-/

/-- Test whether `p` is a leading segment of `l` (a substring match at the
current position). -/
def isPre : List Char → List Char → Bool
  | [], _ => true
  | _ :: _, [] => false
  | a :: ps, b :: ls => a == b && isPre ps ls

/-- Python `pat in s` for a non-empty pattern: `pat` occurs contiguously in
`l`. -/
def containsSub (pat : List Char) : List Char → Bool
  | [] => isPre pat []
  | c :: rest => isPre pat (c :: rest) || containsSub pat rest

/-- Python `s.split(pat, 1)`: split at the leftmost occurrence of `pat`,
`none` when `pat` does not occur. -/
def splitFirst (pat : List Char) : List Char → Option (List Char × List Char)
  | [] => none
  | c :: rest =>
    if isPre pat (c :: rest) then some ([], List.drop pat.length (c :: rest))
    else
      match splitFirst pat rest with
      | some (a, b) => some (c :: a, b)
      | none => none

/-- Python `s.split(pat)[-1]`: the segment after the last occurrence of
`pat` (the whole list when `pat` does not occur).  Fuelled by the input
length, which bounds the number of occurrences. -/
def lastSegAux (pat : List Char) : Nat → List Char → List Char
  | 0, l => l
  | fuel + 1, l =>
    match splitFirst pat l with
    | none => l
    | some (_, b) => lastSegAux pat fuel b

/-- Python `s.strip()`. -/
def trimChars (l : List Char) : List Char :=
  ((l.dropWhile Char.isWhitespace).reverse.dropWhile Char.isWhitespace).reverse

/-- Python `s.split()` (split on whitespace runs, no empty tokens), with an
accumulator holding the current token reversed. -/
def pysplitAux (cur : List Char) : List Char → List (List Char)
  | [] => if cur.isEmpty then [] else [cur.reverse]
  | c :: rest =>
    if c.isWhitespace then
      if cur.isEmpty then pysplitAux [] rest
      else cur.reverse :: pysplitAux [] rest
    else pysplitAux (c :: cur) rest

/-- Python `s.split()`. -/
def pysplit (l : List Char) : List (List Char) := pysplitAux [] l

/-- Lowercasing as Python `str.lower()` acts on the alphabets the source
uses: ASCII A–Z and Cyrillic А–Я / Ё.  (Other scripts never match the fixed
Russian tables and keyword lists, so their lowercasing is irrelevant here.) -/
def rusLowerChar (c : Char) : Char :=
  if 0x410 ≤ c.toNat ∧ c.toNat ≤ 0x42F then Char.ofNat (c.toNat + 0x20)
  else if c.toNat = 0x401 then Char.ofNat 0x451
  else c.toLower

/-- Python `s.lower()` restricted as in `rusLowerChar`. -/
def rusLower (l : List Char) : List Char := l.map rusLowerChar

/-- All-ASCII-digit parse of a token body; `none` on empty or non-digit
input.  Models the digit-string core of Python `int(token)`. -/
def parseDigits : List Char → Option Nat
  | [] => none
  | l =>
    if l.all Char.isDigit then
      some (l.foldl (fun a c => 10 * a + (c.toNat - 48)) 0)
    else none

/-- Python `int(token)` on a whitespace-free token: optional sign followed
by decimal digits.  (Underscore separators and non-ASCII decimal digits,
which CPython also accepts, are not modelled; no claim depends on them.) -/
def pyInt? (l : List Char) : Option Int :=
  match l with
  | '-' :: rest => (parseDigits rest).map (fun n => -(n : Int))
  | '+' :: rest => (parseDigits rest).map (fun n => (n : Int))
  | _ => (parseDigits l).map (fun n => (n : Int))

/-! ### Calendar model (Python `datetime`)

`datetime(year, month, day)` validates `1 ≤ year ≤ 9999` and the day against
the proleptic-Gregorian month length, and compares like its total ordinal.
`toOrdinal` is `date.toordinal`; `dateSecs` scales it to seconds so that a
`datetime.now()` instant (midnight ordinal plus seconds of day) is a plain
`Int` in the same unit, making `death_date >= now - timedelta(hours=24)` an
integer comparison.
-/

/-- Gregorian leap-year rule. -/
def isLeap (y : Nat) : Bool := y % 4 == 0 && (y % 100 != 0 || y % 400 == 0)

/-- Days in the months before month `m` of a common year. -/
def cumDays (m : Nat) : Nat :=
  match m with
  | 1 => 0 | 2 => 31 | 3 => 59 | 4 => 90 | 5 => 120 | 6 => 151 | 7 => 181
  | 8 => 212 | 9 => 243 | 10 => 273 | 11 => 304 | 12 => 334 | _ => 0

/-- Days in the months of year `y` before month `m`. -/
def daysBeforeMonth (y m : Nat) : Nat :=
  cumDays m + (if 3 ≤ m ∧ isLeap y then 1 else 0)

/-- Length of month `m` in year `y`. -/
def daysInMonth (y m : Nat) : Nat :=
  match m with
  | 1 => 31 | 2 => if isLeap y then 29 else 28 | 3 => 31 | 4 => 30 | 5 => 31
  | 6 => 30 | 7 => 31 | 8 => 31 | 9 => 30 | 10 => 31 | 11 => 30 | 12 => 31
  | _ => 0

/-- Python `date(y, m, d).toordinal()`: day 1 is 0001-01-01. -/
def toOrdinal (y m d : Nat) : Nat :=
  365 * (y - 1) + (y - 1) / 4 - (y - 1) / 100 + (y - 1) / 400
    + daysBeforeMonth y m + d

/-- The instant `datetime(y, m, d)` (midnight) in seconds. -/
def dateSecs (y m d : Nat) : Int := 86400 * (toOrdinal y m d : Int)

/-- The argument validation performed by the `datetime(year, month, day)`
constructor (month is always 1–12 here, coming from the month table). -/
def validYMD (y : Int) (m : Nat) (d : Int) : Bool :=
  1 ≤ y && y ≤ 9999 && 1 ≤ d && d ≤ (daysInMonth y.toNat m : Int)

/-! ### Date Classifier (`is_recent`, source lines 89–122) -/

/-- The fixed Russian month table `months_ru`. -/
def months_ru : List (String × Nat) :=
  [("января", 1), ("февраля", 2), ("марта", 3), ("апреля", 4), ("мая", 5),
   ("июня", 6), ("июля", 7), ("августа", 8), ("сентября", 9), ("октября", 10),
   ("ноября", 11), ("декабря", 12)]

/-- Line 106: `months_ru.get(month_name)`. -/
def monthLookup (name : String) : Option Nat := months_ru.lookup name

/-- The `" - "` separator. -/
def sepChars : List Char := [' ', '-', ' ']

/-- Lines 98–99: `if ' - ' in s: s = s.split(' - ')[-1].strip()`. -/
def deathTail (l : List Char) : List Char :=
  if containsSub sepChars l then trimChars (lastSegAux sepChars l.length l)
  else l

/-- Lines 103–112 as a parse phase: read day / month-name / year from the
three leading tokens, look the month up, and validate the calendar date exactly as the
`datetime` constructor does.  Any failure — fewer than three tokens, a
non-numeric day or year (an exception caught at line 120), an unknown month
(line 108), or an invalid calendar date (an exception caught at line 120) —
yields `none`. -/
def parseYMD (dTok mTok yTok : List Char) : Option (Nat × Nat × Nat) :=
  match pyInt? dTok, monthLookup (String.mk (rusLower mTok)), pyInt? yTok with
  | some d, some m, some y =>
    if validYMD y m d then some (y.toNat, m, d.toNat) else none
  | _, _, _ => none

/-- The three leading tokens of the tokenized date text, handed to
`parseYMD`; fewer than three tokens is the parse failure of line 117. -/
def parseDeathDate (s : String) : Option (Nat × Nat × Nat) :=
  match pysplit (deathTail s.data) with
  | dTok :: mTok :: yTok :: _ => parseYMD dTok mTok yTok
  | _ => none

/-- Source `is_recent(death_date_str)` with the ambient `datetime.now()` made an
explicit parameter `now` (seconds, same unit as `dateSecs`).  Every
exception path of the source returns `False` via the `none` branch. -/
def is_recent (now : Int) (s : String) : Bool :=
  match parseDeathDate s with
  | some (y, m, d) => decide (now - 86400 ≤ dateSecs y m d)
  | none => false

/-! ### Entry Extractor (`parse_obits`, source lines 124–213)

Network fetch and BeautifulSoup node discovery are external collaborators:
the page text reaches us already fetched (`page`), and the text blocks the
three search strategies yield are the oracle input `texts`.  Everything the
source does with a text block is modelled in `processText`.
-/

/-- The fixed profession keyword list (line 190). -/
def keywords : List String :=
  ["актер", "артист", "режиссёр", "театр", "гимнаст", "спорт", "кино",
   "сценарист", "писатель"]

/-- The blocking-page markers (line 143). -/
def blockedMarkers : List String := ["cloudflare", "access denied", "доступ запрещен"]

/-- Line 143: `any(blocked in response.text.lower() for blocked in [...])`. -/
def pageBlocked (page : String) : Bool :=
  blockedMarkers.any (fun b => containsSub b.data (rusLower page.data))

/-- Lines 177–197, the per-text-block pipeline: discard empty text, text
without `" - "`, or text shorter than 10 characters; split at the first
`" - "` into `(name, dates)`; keep only if the lowercased full text contains
a keyword and `is_recent(dates)` holds. -/
def processText (now : Int) (text : String) : Option Entry :=
  let cs := text.data
  if cs.isEmpty || !containsSub sepChars cs || cs.length < 10 then none
  else
    match splitFirst sepChars cs with
    | none => none
    | some (n, d) =>
      let name := String.mk (trimChars n)
      let dates := String.mk (trimChars d)
      if keywords.any (fun kw => containsSub kw.data (rusLower cs)) then
        if is_recent now dates then some { name := name, date := dates }
        else none
      else none

/-- The dedup key `f"{o['name']} {o['date']}"` (lines 206 and 275): the
name and the date text concatenated with a single space. -/
def entryKey (e : Entry) : String := e.name ++ " " ++ e.date

/-- Lines 202–209: the dedup loop, with the `seen` set of keys carried as a
list. -/
def dedupByKey (seen : List String) : List Entry → List Entry
  | [] => []
  | o :: rest =>
    if seen.contains (entryKey o) then dedupByKey seen rest
    else o :: dedupByKey (entryKey o :: seen) rest

/-- Source `parse_obits()` given the fetched page text and the text blocks found by
the search strategies: the blocking-page guard, then per-block extraction,
then dedup. -/
def parse_obits (now : Int) (page : String) (texts : List String) : List Entry :=
  if pageBlocked page then []
  else dedupByKey [] (texts.filterMap (fun t => processText now t))

/-- The Dedup & Recency Filter acting on already-built candidate entries:
the composition of the recency gate (line 194) and the dedup loop
(lines 202–209).  Entries appended at line 195 satisfy
`is_recent(o['date'])` by construction, so on entry lists the source
pipeline is this filter followed by dedup. -/
def filterCandidates (now : Int) (cands : List Entry) : List Entry :=
  dedupByKey [] (cands.filter (fun e => is_recent now e.date))

/-- Modelled from the spec (§4.3), for comparison with the code: dedup that
keys on the structural `(name, dateText)` pair — "unique by the
`(name, dateText)` key", first occurrence wins. -/
def pairDedup (seen : List (String × String)) : List Entry → List Entry
  | [] => []
  | o :: rest =>
    if seen.contains (o.name, o.date) then pairDedup seen rest
    else o :: pairDedup ((o.name, o.date) :: seen) rest

/-- Modelled from the spec (§4.3): the Dedup & Recency Filter with the
structural pair key. -/
def specFilterCandidates (now : Int) (cands : List Entry) : List Entry :=
  pairDedup [] (cands.filter (fun e => is_recent now e.date))

/-! ### Baseline Store (`save_state` / `load_state`, source lines 65–87)

`save_state` writes `json.dump(obits, f, ensure_ascii=False, indent=2)`;
the file content it produces is modelled character-exactly (`save_state`
below returns that text).  `load_state` reads the file with `json.load` and
returns the parsed data, or `[]` when reading fails; `json.load` is Python
standard library, modelled here by a JSON parser covering the sublanguage
`json.dump` emits for a list of `{name, date}` string records (same string
escapes, arbitrary JSON whitespace between tokens, full-input consumption).
-/

/-- Lower-case hex digit, as `%04x` formatting uses. -/
def hexDig (n : Nat) : Char :=
  if n < 10 then Char.ofNat (48 + n) else Char.ofNat (87 + n)

/-- The `json` encoder's per-character escaping with `ensure_ascii=False`:
`\` and `"` and the named control escapes, `\u00XX` for the remaining
control characters, every other character verbatim. -/
def encChar (c : Char) : List Char :=
  if c = '"' then ['\\', '"']
  else if c = '\\' then ['\\', '\\']
  else if c = '\x08' then ['\\', 'b']
  else if c = '\x0c' then ['\\', 'f']
  else if c = '\n' then ['\\', 'n']
  else if c = '\r' then ['\\', 'r']
  else if c = '\t' then ['\\', 't']
  else if c.toNat < 32 then
    ['\\', 'u', '0', '0', hexDig (c.toNat / 16), hexDig (c.toNat % 16)]
  else [c]

/-- Escape a whole character sequence. -/
def encChars : List Char → List Char
  | [] => []
  | c :: cs => encChar c ++ encChars cs

/-- A JSON string literal: `"…"` with `encChar` escaping. -/
def encStr (s : String) : List Char := '"' :: (encChars s.data ++ ['"'])

/-- One entry as `json.dump(..., indent=2)` prints it inside the list:
`␣␣{\n␣␣␣␣"name": <str>,\n␣␣␣␣"date": <str>\n␣␣}` (the dict preserves the
insertion order `name`, `date` of line 195). -/
def encEntry (e : Entry) : List Char :=
  [' ', ' ', '\x7b', '\n', ' ', ' ', ' ', ' '] ++ encStr "name" ++ [':', ' ']
    ++ encStr e.name
    ++ [',', '\n', ' ', ' ', ' ', ' '] ++ encStr "date" ++ [':', ' ']
    ++ encStr e.date
    ++ ['\n', ' ', ' ', '\x7d']

/-- The text after the first entry: each further entry joined by `,\n`,
then the closing `\n]`. -/
def encBody : List Entry → List Char
  | [] => ['\n', ']']
  | e :: rest => [',', '\n'] ++ encEntry e ++ encBody rest

/-- The exact file text `save_state(obits)` writes: `[]` for the empty
list, otherwise the `indent=2` pretty printing of the record list. -/
def save_state (obits : List Entry) : String :=
  match obits with
  | [] => String.mk ['[', ']']
  | e :: rest => String.mk ('[' :: '\n' :: (encEntry e ++ encBody rest))

/-- JSON whitespace, as `json.load` skips between tokens. -/
def jsonWs (c : Char) : Bool := c = ' ' || c = '\n' || c = '\t' || c = '\r'

/-- Skip JSON whitespace. -/
def skipWs : List Char → List Char
  | [] => []
  | c :: rest => if jsonWs c then skipWs rest else c :: rest

/-- Hex digit value, for `\uXXXX` escapes. -/
def hexVal (c : Char) : Option Nat :=
  if '0' ≤ c ∧ c ≤ '9' then some (c.toNat - 48)
  else if 'a' ≤ c ∧ c ≤ 'f' then some (c.toNat - 87)
  else if 'A' ≤ c ∧ c ≤ 'F' then some (c.toNat - 55)
  else none

/-- Prepend a decoded character to a string-parse result. -/
def push (c : Char) : Option (List Char × List Char) → Option (List Char × List Char)
  | none => none
  | some (s, r) => some (c :: s, r)

/-- Parse the body of a JSON string literal (after the opening `"`)
up to its closing `"`, decoding the escapes; returns the decoded
characters and the rest of the input.  (Surrogate-pair `\u` escapes do not
arise from scalar values and are not combined.) -/
def decStrAux : List Char → Option (List Char × List Char)
  | [] => none
  | c :: rest =>
    if c = '"' then some ([], rest)
    else if c = '\\' then
      match rest with
      | [] => none
      | e :: r =>
        if e = '"' then push '"' (decStrAux r)
        else if e = '\\' then push '\\' (decStrAux r)
        else if e = '/' then push '/' (decStrAux r)
        else if e = 'b' then push '\x08' (decStrAux r)
        else if e = 'f' then push '\x0c' (decStrAux r)
        else if e = 'n' then push '\n' (decStrAux r)
        else if e = 'r' then push '\r' (decStrAux r)
        else if e = 't' then push '\t' (decStrAux r)
        else if e = 'u' then
          match r with
          | h1 :: h2 :: h3 :: h4 :: r2 =>
            match hexVal h1, hexVal h2, hexVal h3, hexVal h4 with
            | some a, some b, some c2, some d =>
              push (Char.ofNat (4096 * a + 256 * b + 16 * c2 + d)) (decStrAux r2)
            | _, _, _, _ => none
          | _ => none
        else none
    else push c (decStrAux rest)

/-- Expect one punctuation character, skipping leading whitespace. -/
def expectChar (c : Char) (l : List Char) : Option (List Char) :=
  match skipWs l with
  | x :: rest => if x = c then some rest else none
  | [] => none

/-- Parse a JSON string literal, skipping leading whitespace. -/
def decString (l : List Char) : Option (List Char × List Char) :=
  match skipWs l with
  | x :: rest => if x = '"' then decStrAux rest else none
  | [] => none

/-- Parse one `{"name": …, "date": …}` object. -/
def decEntry (l : List Char) : Option (Entry × List Char) := do
  let l1 ← expectChar '\x7b' l
  let (k1, l2) ← decString l1
  if k1 = "name".data then do
    let l3 ← expectChar ':' l2
    let (nm, l4) ← decString l3
    let l5 ← expectChar ',' l4
    let (k2, l6) ← decString l5
    if k2 = "date".data then do
      let l7 ← expectChar ':' l6
      let (dt, l8) ← decString l7
      let l9 ← expectChar '\x7d' l8
      pure ({ name := String.mk nm, date := String.mk dt }, l9)
    else none
  else none

/-- After one parsed entry: either the closing `]`, or `,` and a further
entry.  Fuelled; the input length bounds the iteration count since every
step consumes at least the `,`. -/
def decMoreEntries : Nat → List Char → Option (List Entry × List Char)
  | 0, _ => none
  | fuel + 1, l =>
    match skipWs l with
    | [] => none
    | c :: r =>
      if c = ']' then some ([], r)
      else if c = ',' then do
        let (e, l2) ← decEntry r
        let (es, l3) ← decMoreEntries fuel l2
        pure (e :: es, l3)
      else none

/-- Parse the document body after the opening `[`: either an immediately
closing `]` (empty list) or an entry followed by further entries, requiring
the input to be fully consumed afterwards (as `json.load` does). -/
def parseTop (l1 : List Char) : Option (List Entry) :=
  match skipWs l1 with
  | [] => none
  | c :: r =>
    if c = ']' then (if skipWs r = [] then some [] else none)
    else
      match decEntry l1 with
      | none => none
      | some (e, l2) =>
        match decMoreEntries (l2.length + 1) l2 with
        | none => none
        | some (es, l3) => if skipWs l3 = [] then some (e :: es) else none

/-- Parse a complete record-list document. -/
def parseEntries (l : List Char) : Option (List Entry) :=
  (expectChar '[' l).bind parseTop

/-- Source `load_state()` on a store holding `text`: the parsed record list, or
`[]` when parsing fails (lines 72–77 catch every read error and leave
`last_obits = []`). -/
def load_state (text : String) : List Entry :=
  (parseEntries text.data).getD []

/-! ### Delta Engine and Scrape Cycle (`check_updates`, source lines 262–300) -/

/-- Lines 275–276: `last_keys = {f"{o['name']} {o['date']}" for o in last_obits}`
and `new_obits = [o for o in current_obits if f"{o['name']} {o['date']}" not in last_keys]`. -/
def computeDelta (baseline cands : List Entry) : List Entry :=
  let lastKeys := baseline.map entryKey
  cands.filter (fun o => !lastKeys.contains (entryKey o))

/-- Observable outcome of one `check_updates` run: the in-memory baseline
(`last_obits`) afterwards, and whether `save_state` was invoked. -/
structure CycleOut where
  baseline : List Entry
  wroteState : Bool
deriving DecidableEq, Repr

/-- Lines 280–300.  `notifyOk` models whether `context.bot.send_message`
returns or raises.  When it raises, the exception is caught by the
function's outer `except` (line 299) *before* `save_state(last_obits +
new_obits)` at line 295 runs, so the baseline stays as it was and no state
is written.  When the delta is empty (line 296) nothing is sent or saved. -/
def check_updates (notifyOk : Bool) (baseline cands : List Entry) : CycleOut :=
  let new_obits := computeDelta baseline cands
  if new_obits.isEmpty then { baseline := baseline, wroteState := false }
  else if notifyOk then
    { baseline := baseline ++ new_obits, wroteState := true }
  else { baseline := baseline, wroteState := false }

/-- A sequence of scrape cycles: each step carries that cycle's
notification outcome and candidate set. -/
def runCycles (steps : List (Bool × List Entry)) (baseline : List Entry) :
    List Entry :=
  steps.foldl (fun b s => (check_updates s.1 b s.2).baseline) baseline

/-! ## Theorems -/

/-! ### Helper lemmas about the dedup loop -/

theorem dedupByKey_sublist (seen : List String) (l : List Entry) :
    (dedupByKey seen l).Sublist l := by
  induction l generalizing seen with
  | nil => simp [dedupByKey]
  | cons o rest ih =>
    unfold dedupByKey
    split
    · exact List.Sublist.cons o (ih seen)
    · exact List.Sublist.cons₂ o (ih _)

theorem dedupByKey_mem_not_seen (seen : List String) (l : List Entry) :
    ∀ e ∈ dedupByKey seen l, entryKey e ∉ seen := by
  induction l generalizing seen with
  | nil => simp [dedupByKey]
  | cons o rest ih =>
    unfold dedupByKey
    split
    next h => exact ih seen
    next h =>
      intro e he
      rcases List.mem_cons.mp he with rfl | hmem
      · simpa [List.contains] using h
      · intro hs
        exact ih (entryKey o :: seen) e hmem (List.mem_cons_of_mem _ hs)

theorem dedupByKey_pairwise (seen : List String) (l : List Entry) :
    (dedupByKey seen l).Pairwise (fun a b => entryKey a ≠ entryKey b) := by
  induction l generalizing seen with
  | nil => simp [dedupByKey]
  | cons o rest ih =>
    unfold dedupByKey
    split
    · exact ih seen
    · refine List.Pairwise.cons ?_ (ih _)
      intro b hb he
      exact dedupByKey_mem_not_seen _ _ b hb (he ▸ List.mem_cons_self _ _)

theorem dedupByKey_find? (k : String) (seen : List String) (l : List Entry)
    (hk : k ∉ seen) :
    (dedupByKey seen l).find? (fun e => entryKey e == k)
      = l.find? (fun e => entryKey e == k) := by
  induction l generalizing seen with
  | nil => simp [dedupByKey]
  | cons o rest ih =>
    unfold dedupByKey
    split
    next h =>
      have hmem : entryKey o ∈ seen := by simpa [List.contains] using h
      have hne : (entryKey o == k) = false := by
        simp only [beq_eq_false_iff_ne, ne_eq]
        intro he; exact hk (he ▸ hmem)
      rw [List.find?_cons, hne, ih seen hk]
    next h =>
      rw [List.find?_cons, List.find?_cons]
      cases hko : entryKey o == k with
      | true => rfl
      | false =>
        refine ih (entryKey o :: seen) ?_
        intro hkmem
        rcases List.mem_cons.mp hkmem with rfl | hmem
        · simp at hko
        · exact hk hmem

/-! ### Claim C1 — the Delta Engine's key -/

/-- Claim C1, counterexample: the source keys on the concatenated string
`f"{name} {date}"`, not on the `(name, dateText)` pair.  The candidate
`("a", "b c")` differs as a pair from the only baseline entry
`("a b", "c")`, yet both concatenate to `"a b c"`, so `computeDelta` omits
it — refuting "no candidate whose pair differs from every baseline entry's
pair is omitted". -/
theorem c1_counterexample :
    computeDelta [⟨"a b", "c"⟩] [⟨"a", "b c"⟩] = [] ∧
    ∀ b ∈ [(⟨"a b", "c"⟩ : Entry)],
      ¬(b.name = "a" ∧ b.date = "b c") := by decide

/-- Claim C1 (amended): `computeDelta baseline candidates` returns exactly
the candidates, in order, whose *concatenated* key `name ++ " " ++ date` is
absent from the baseline's concatenated keys: the result is a sublist of
the candidates, and an entry is in it iff it is a candidate and no baseline
entry has the same concatenated key. -/
theorem c1_delta_by_concat_key (baseline cands : List Entry) :
    (computeDelta baseline cands).Sublist cands ∧
    ∀ e, e ∈ computeDelta baseline cands ↔
      e ∈ cands ∧ ∀ b ∈ baseline, entryKey b ≠ entryKey e := by
  constructor
  · exact List.filter_sublist cands
  · intro e
    simp only [computeDelta, List.mem_filter, Bool.not_eq_eq_eq_not,
      Bool.not_true, List.contains, List.elem_eq_mem, decide_eq_false_iff_not,
      List.mem_map, not_exists, not_and, and_congr_right_iff]

/-- Claim C1 witness: a concrete application of the amended theorem. -/
theorem c1_witness :
    (⟨"Иванов", "01 октября 2025"⟩ : Entry)
      ∈ computeDelta [] [⟨"Иванов", "01 октября 2025"⟩] :=
  ((c1_delta_by_concat_key [] [⟨"Иванов", "01 октября 2025"⟩]).2
    ⟨"Иванов", "01 октября 2025"⟩).mpr (by decide)

/-! ### Claim C2 — baseline advancement vs. notification outcome -/

/-- Claim C2, counterexample: with a non-empty delta and a *failing*
notification send, the baseline is not advanced and nothing is saved — the
send's exception reaches the outer handler (line 299) before
`save_state` (line 295) runs.  This refutes "the baseline is advanced …
regardless of whether handing the delta to the notification sink succeeds
or fails". -/
theorem c2_counterexample :
    computeDelta [] [⟨"a", "b"⟩] ≠ [] ∧
    (check_updates false [] [⟨"a", "b"⟩]).baseline
      ≠ [] ++ computeDelta [] [⟨"a", "b"⟩] ∧
    (check_updates false [] [⟨"a", "b"⟩]).wroteState = false := by decide

/-- Claim C2 (amended): in a cycle with a non-empty delta the baseline is
advanced to `baseline ++ delta` and persisted exactly when the notification
send succeeds; when the send fails the baseline is left unchanged and no
save is performed (so the entries will be re-notified on a later cycle). -/
theorem c2_baseline_requires_notify (ok : Bool) (baseline cands : List Entry) :
    (check_updates ok baseline cands).baseline =
      (if ok && !(computeDelta baseline cands).isEmpty then
        baseline ++ computeDelta baseline cands
      else baseline) ∧
    (check_updates ok baseline cands).wroteState =
      (ok && !(computeDelta baseline cands).isEmpty) := by
  unfold check_updates
  cases ok <;> cases h : (computeDelta baseline cands).isEmpty <;> simp [h]

/-! ### Claim C7 — empty delta leaves everything untouched -/

/-- Claim C7: a cycle whose delta is empty leaves the baseline unchanged
and performs no persistence write; re-running with the same candidates
against the resulting baseline again yields an empty delta and again
triggers no write. -/
theorem c7_empty_delta_no_write (ok : Bool) (baseline cands : List Entry)
    (h : computeDelta baseline cands = []) :
    (check_updates ok baseline cands).baseline = baseline ∧
    (check_updates ok baseline cands).wroteState = false ∧
    computeDelta (check_updates ok baseline cands).baseline cands = [] ∧
    (check_updates ok (check_updates ok baseline cands).baseline cands).wroteState
      = false := by
  unfold check_updates
  simp [h]

/-- Claim C7 witness: the scenario of the spec — a baseline already holding
the only candidate. -/
theorem c7_witness :
    (check_updates true [⟨"Иванов", "01 октября 2025"⟩]
        [⟨"Иванов", "01 октября 2025"⟩]).baseline
      = [⟨"Иванов", "01 октября 2025"⟩] ∧
    (check_updates true [⟨"Иванов", "01 октября 2025"⟩]
        [⟨"Иванов", "01 октября 2025"⟩]).wroteState = false :=
  ⟨(c7_empty_delta_no_write true [⟨"Иванов", "01 октября 2025"⟩]
      [⟨"Иванов", "01 октября 2025"⟩] (by decide)).1,
   (c7_empty_delta_no_write true [⟨"Иванов", "01 октября 2025"⟩]
      [⟨"Иванов", "01 октября 2025"⟩] (by decide)).2.1⟩

/-! ### Claim C9 — append-only baseline -/

theorem check_updates_append (ok : Bool) (b c : List Entry) :
    ∃ t, (check_updates ok b c).baseline = b ++ t := by
  unfold check_updates
  cases ok <;> cases h : (computeDelta b c).isEmpty <;> simp [h]

/-- Claim C9: every cycle either leaves the baseline unchanged or appends
the delta at the end, and consequently after any sequence of cycles the
starting baseline is an initial segment of the final one — nothing is ever
removed or reordered. -/
theorem c9_baseline_append_only (steps : List (Bool × List Entry))
    (baseline : List Entry) :
    (∀ ok cands, (check_updates ok baseline cands).baseline = baseline ∨
      (check_updates ok baseline cands).baseline
        = baseline ++ computeDelta baseline cands) ∧
    ∃ t, runCycles steps baseline = baseline ++ t := by
  constructor
  · intro ok cands
    unfold check_updates
    cases ok <;> cases h : (computeDelta baseline cands).isEmpty <;> simp [h]
  · induction steps generalizing baseline with
    | nil => exact ⟨[], by simp [runCycles]⟩
    | cons s steps ih =>
      obtain ⟨t1, h1⟩ := check_updates_append s.1 baseline s.2
      obtain ⟨t2, h2⟩ := ih ((check_updates s.1 baseline s.2).baseline)
      refine ⟨t1 ++ t2, ?_⟩
      show runCycles steps ((check_updates s.1 baseline s.2).baseline) = _
      rw [h2, h1, List.append_assoc]

/-! ### Claim C10 — blocking-page guard -/

/-- Claim C10: when the lowercased page text contains one of the blocking
markers, the extractor returns the empty candidate set no matter what the
search strategies would have found. -/
theorem c10_blocked_page_empty (now : Int) (page : String)
    (texts : List String) (h : pageBlocked page = true) :
    parse_obits now page texts = [] := by
  unfold parse_obits
  simp [h]

/-- Claim C10 witness: a blocked page yields nothing even though its text
blocks contain a well-formed, keyword-matching, recent entry — the same
blocks on an unblocked page do yield that entry. -/
theorem c10_witness :
    parse_obits 64039507200 "Attention Required! — Cloudflare"
      ["актер Иванов - 1 мая 2030"] = [] ∧
    parse_obits 64039507200 "обычная страница"
      ["актер Иванов - 1 мая 2030"] = [⟨"актер Иванов", "1 мая 2030"⟩] :=
  ⟨c10_blocked_page_empty 64039507200 "Attention Required! — Cloudflare"
      ["актер Иванов - 1 мая 2030"] (by decide),
   by decide⟩

/-! ### Claim C3 — minimum text-block length -/

/-- Claim C3, counterexample: the guard at line 177 is `len(text) < 10`,
not `< 15`.  A 14-character block survives every filter and produces an
output entry (with a classification instant early enough that its
three-token date parses as recent), so "discards every candidate text
block shorter than 15 characters" is false of the code. -/
theorem c3_counterexample :
    parse_obits 10454400 "" ["кино - 5 мая 1"] = [⟨"кино", "5 мая 1"⟩] ∧
    ("кино - 5 мая 1" : String).length < 15 := by decide

theorem processText_length (now : Int) (t : String) (e : Entry)
    (h : processText now t = some e) : 10 ≤ t.length := by
  unfold processText at h
  by_cases hc : t.data.isEmpty || !containsSub sepChars t.data
      || t.data.length < 10
  · rw [if_pos hc] at h
    exact absurd h (by simp)
  · have : ¬ t.data.length < 10 := by
      intro hlt
      apply hc
      have hdec : decide (t.data.length < 10) = true := decide_eq_true hlt
      simp only [hdec, Bool.or_true]
    show 10 ≤ t.data.length
    omega

/-- Claim C3 (amended): every entry the extractor emits originates from a
text block of at least 10 characters — the source's anti-noise threshold
is 10, not 15. -/
theorem c3_min_length_ten (now : Int) (page : String) (texts : List String)
    (e : Entry) (h : e ∈ parse_obits now page texts) :
    ∃ t ∈ texts, processText now t = some e ∧ 10 ≤ t.length := by
  unfold parse_obits at h
  split at h
  · exact absurd h (by simp)
  · have hm := (dedupByKey_sublist [] _).mem h
    obtain ⟨t, ht, hp⟩ := List.mem_filterMap.mp hm
    exact ⟨t, ht, hp, processText_length now t e hp⟩

/-- Claim C3 witness: a concrete application of the amended theorem. -/
theorem c3_witness :
    ∃ t ∈ ["актер Иванов - 1 мая 2030"],
      processText 64039507200 t = some ⟨"актер Иванов", "1 мая 2030"⟩ ∧
      10 ≤ t.length :=
  c3_min_length_ten 64039507200 "обычная страница"
    ["актер Иванов - 1 мая 2030"] ⟨"актер Иванов", "1 мая 2030"⟩ (by decide)

/-! ### Claim C4 — the Date Classifier fails closed -/

/-- Claim C4: `is_recent` is total (it is a Lean function), and on every
parse error it returns `false`: fewer than three whitespace tokens after
taking the portion following the last `" - "` separator, a non-numeric day
or year, a month name outside the fixed 12-entry table, or an invalid
calendar date. -/
theorem c4_parse_errors_false (now : Int) (s : String) :
    ((pysplit (deathTail s.data)).length < 3 → is_recent now s = false) ∧
    ∀ dTok mTok yTok rest,
      pysplit (deathTail s.data) = dTok :: mTok :: yTok :: rest →
      (pyInt? dTok = none ∨ monthLookup (String.mk (rusLower mTok)) = none ∨
        pyInt? yTok = none ∨
        ∀ d m y, pyInt? dTok = some d →
          monthLookup (String.mk (rusLower mTok)) = some m →
          pyInt? yTok = some y → validYMD y m d = false) →
      is_recent now s = false := by
  have hnone : parseDeathDate s = none → is_recent now s = false := by
    intro h
    simp [is_recent, h]
  constructor
  · intro hlen
    apply hnone
    unfold parseDeathDate
    cases hl : pysplit (deathTail s.data) with
    | nil => rfl
    | cons a t =>
      cases t with
      | nil => rfl
      | cons b t2 =>
        cases t2 with
        | nil => rfl
        | cons c t3 =>
          rw [hl] at hlen
          simp at hlen
          omega
  · intro dTok mTok yTok rest hl herr
    apply hnone
    unfold parseDeathDate
    rw [hl]
    show parseYMD dTok mTok yTok = none
    unfold parseYMD
    cases hd : pyInt? dTok with
    | none => rfl
    | some d =>
      cases hm : monthLookup (String.mk (rusLower mTok)) with
      | none => rfl
      | some m =>
        cases hy : pyInt? yTok with
        | none => rfl
        | some y =>
          rcases herr with h | h | h | h
          · rw [h] at hd
            exact Option.noConfusion hd
          · rw [h] at hm
            exact Option.noConfusion hm
          · rw [h] at hy
            exact Option.noConfusion hy
          · simp [h d m y hd hm hy]

/-- Claim C4 witness: a three-token date with an unknown month name is
classified not-recent via the theorem. -/
theorem c4_witness : is_recent 0 "5 тестабря 2025" = false :=
  (c4_parse_errors_false 0 "5 тестабря 2025").2
    "5".data "тестабря".data "2025".data []
    (by decide) (Or.inr (Or.inl (by decide)))

/-! ### Claim C5 — the recency window -/

/-- Claim C5: for every date text that parses to a valid calendar date and
every classification instant `now`, `is_recent` returns `true` iff the
parsed date (at midnight) is at least `now` minus 24 hours; in particular
every parsed future date is classified recent. -/
theorem c5_recent_iff_within_window (now : Int) (s : String) (y m d : Nat)
    (h : parseDeathDate s = some (y, m, d)) :
    (is_recent now s = true ↔ now - 86400 ≤ dateSecs y m d) ∧
    (now ≤ dateSecs y m d → is_recent now s = true) := by
  constructor
  · simp [is_recent, h]
  · intro hf
    simp only [is_recent, h, decide_eq_true_eq]
    omega

/-- Claim C5 witness: `"1 октября 2025"` is recent at the instant equal to
its own midnight. -/
theorem c5_witness : is_recent 63894960000 "1 октября 2025" = true :=
  (c5_recent_iff_within_window 63894960000 "1 октября 2025" 2025 10 1
    (by decide)).1.mpr (by decide)

/-! ### Claim C6 — the Dedup & Recency Filter -/

/-- Claim C6, counterexample: the dedup key is the concatenated string, so
two recent candidates with *different* `(name, dateText)` pairs can
collide (`"x" ++ " " ++ "1 - 1 мая 2030"` equals
`"x 1 -" ++ " " ++ "1 мая 2030"`); the code keeps only the first, while
the pair-keyed filter of the claim keeps both. -/
theorem c6_counterexample :
    filterCandidates 64039507200
        [⟨"x", "1 - 1 мая 2030"⟩, ⟨"x 1 -", "1 мая 2030"⟩]
      = [⟨"x", "1 - 1 мая 2030"⟩] ∧
    specFilterCandidates 64039507200
        [⟨"x", "1 - 1 мая 2030"⟩, ⟨"x 1 -", "1 мая 2030"⟩]
      = [⟨"x", "1 - 1 мая 2030"⟩, ⟨"x 1 -", "1 мая 2030"⟩] ∧
    (⟨"x", "1 - 1 мая 2030"⟩ : Entry) ≠ ⟨"x 1 -", "1 мая 2030"⟩ ∧
    is_recent 64039507200 "1 - 1 мая 2030" = true ∧
    is_recent 64039507200 "1 мая 2030" = true := by decide

/-- Claim C6 (amended): the filter's output is a subsequence of the input
consisting only of entries classified recent; it contains no two elements
with the same *concatenated* `name ++ " " ++ date` key (hence none with
the same `(name, dateText)` pair); and for every concatenated key the
element kept is the first recent occurrence in input order. -/
theorem c6_filter_dedup_by_concat_key (now : Int) (cands : List Entry) :
    (filterCandidates now cands).Sublist cands ∧
    (∀ e ∈ filterCandidates now cands, is_recent now e.date = true) ∧
    (filterCandidates now cands).Pairwise
      (fun a b => entryKey a ≠ entryKey b) ∧
    ∀ k, (filterCandidates now cands).find? (fun e => entryKey e == k)
      = (cands.filter (fun e => is_recent now e.date)).find?
          (fun e => entryKey e == k) := by
  refine ⟨?_, ?_, ?_, ?_⟩
  · exact (dedupByKey_sublist [] _).trans (List.filter_sublist cands)
  · intro e he
    have := (dedupByKey_sublist [] _).mem he
    exact (List.mem_filter.mp this).2
  · exact dedupByKey_pairwise [] _
  · intro k
    exact dedupByKey_find? k [] _ (by simp)

/-- Claim C6 witness: a concrete application of the amended theorem. -/
theorem c6_witness : is_recent 64039507200 "1 мая 2030" = true :=
  (c6_filter_dedup_by_concat_key 64039507200
      [⟨"Иванов", "1 мая 2030"⟩]).2.1 ⟨"Иванов", "1 мая 2030"⟩ (by decide)

/-! ### Claim C8 — Baseline Store round-trip -/

theorem hexVal_zero : hexVal '0' = some 0 := rfl

theorem hexVal_hexDig (n : Nat) (h : n < 16) : hexVal (hexDig n) = some n := by
  interval_cases n <;> rfl

theorem decStrAux_close (l : List Char) : decStrAux ('"' :: l) = some ([], l) := by
  rw [decStrAux.eq_def]
  simp +decide

theorem decStrAux_plain (c : Char) (l : List Char) (h1 : c ≠ '"')
    (h2 : c ≠ '\\') : decStrAux (c :: l) = push c (decStrAux l) := by
  rw [decStrAux.eq_def]
  simp [h1, h2]

theorem decStrAux_esc_quote (l : List Char) :
    decStrAux ('\\' :: '"' :: l) = push '"' (decStrAux l) := by
  rw [decStrAux.eq_def]
  simp +decide

theorem decStrAux_esc_back (l : List Char) :
    decStrAux ('\\' :: '\\' :: l) = push '\\' (decStrAux l) := by
  rw [decStrAux.eq_def]
  simp +decide

theorem decStrAux_esc_b (l : List Char) :
    decStrAux ('\\' :: 'b' :: l) = push '\x08' (decStrAux l) := by
  rw [decStrAux.eq_def]
  simp +decide

theorem decStrAux_esc_f (l : List Char) :
    decStrAux ('\\' :: 'f' :: l) = push '\x0c' (decStrAux l) := by
  rw [decStrAux.eq_def]
  simp +decide

theorem decStrAux_esc_n (l : List Char) :
    decStrAux ('\\' :: 'n' :: l) = push '\n' (decStrAux l) := by
  rw [decStrAux.eq_def]
  simp +decide

theorem decStrAux_esc_r (l : List Char) :
    decStrAux ('\\' :: 'r' :: l) = push '\r' (decStrAux l) := by
  rw [decStrAux.eq_def]
  simp +decide

theorem decStrAux_esc_t (l : List Char) :
    decStrAux ('\\' :: 't' :: l) = push '\t' (decStrAux l) := by
  rw [decStrAux.eq_def]
  simp +decide

theorem decStrAux_esc_u00 (hi lo : Nat) (hhi : hi < 16) (hlo : lo < 16)
    (l : List Char) :
    decStrAux ('\\' :: 'u' :: '0' :: '0' :: hexDig hi :: hexDig lo :: l)
      = push (Char.ofNat (16 * hi + lo)) (decStrAux l) := by
  rw [decStrAux.eq_def]
  simp +decide [hexVal_zero, hexVal_hexDig _ hhi, hexVal_hexDig _ hlo]

theorem decStrAux_encChars (cs rest : List Char) :
    decStrAux (encChars cs ++ ('"' :: rest)) = some (cs, rest) := by
  induction cs with
  | nil =>
    show decStrAux ('"' :: rest) = _
    exact decStrAux_close rest
  | cons c cs ih =>
    show decStrAux ((encChar c ++ encChars cs) ++ ('"' :: rest)) = _
    rw [List.append_assoc]
    by_cases h1 : c = '"'
    · simp [encChar, h1, decStrAux_esc_quote, push, ih]
    · by_cases h2 : c = '\\'
      · simp [encChar, h1, h2, decStrAux_esc_back, push, ih]
      · by_cases h3 : c = '\x08'
        · simp [encChar, h1, h2, h3, decStrAux_esc_b, push, ih]
        · by_cases h4 : c = '\x0c'
          · simp [encChar, h1, h2, h3, h4, decStrAux_esc_f, push, ih]
          · by_cases h5 : c = '\n'
            · simp [encChar, h1, h2, h3, h4, h5, decStrAux_esc_n, push, ih]
            · by_cases h6 : c = '\r'
              · simp [encChar, h1, h2, h3, h4, h5, h6, decStrAux_esc_r,
                  push, ih]
              · by_cases h7 : c = '\t'
                · simp [encChar, h1, h2, h3, h4, h5, h6, h7,
                    decStrAux_esc_t, push, ih]
                · by_cases h8 : c.toNat < 32
                  · have hhi : c.toNat / 16 < 16 := by omega
                    have hlo : c.toNat % 16 < 16 := Nat.mod_lt _ (by omega)
                    have e1 : encChar c = ['\\', 'u', '0', '0',
                        hexDig (c.toNat / 16), hexDig (c.toNat % 16)] := by
                      simp [encChar, h1, h2, h3, h4, h5, h6, h7, h8]
                    have e2 : 16 * (c.toNat / 16) + c.toNat % 16 = c.toNat :=
                      Nat.div_add_mod _ _
                    rw [e1]
                    simp only [List.cons_append, List.nil_append]
                    rw [decStrAux_esc_u00 _ _ hhi hlo, e2,
                      Char.ofNat_toNat, ih]
                    rfl
                  · have e1 : encChar c = [c] := by
                      simp [encChar, h1, h2, h3, h4, h5, h6, h7, h8]
                    rw [e1]
                    simp only [List.cons_append, List.nil_append]
                    rw [decStrAux_plain c _ h1 h2, ih]
                    rfl

theorem mk_data (s : String) : String.mk s.data = s := rfl

theorem skipWs_cons_ws (x : Char) (h : jsonWs x = true) (l : List Char) :
    skipWs (x :: l) = skipWs l := by
  rw [skipWs.eq_def]
  simp [h]

theorem skipWs_cons_not (x : Char) (h : jsonWs x = false) (l : List Char) :
    skipWs (x :: l) = x :: l := by
  rw [skipWs.eq_def]
  simp [h]

theorem expectChar_ws (c x : Char) (h : jsonWs x = true) (l : List Char) :
    expectChar c (x :: l) = expectChar c l := by
  unfold expectChar
  rw [skipWs_cons_ws x h]

theorem expectChar_self (c : Char) (h : jsonWs c = false) (l : List Char) :
    expectChar c (c :: l) = some l := by
  unfold expectChar
  rw [skipWs_cons_not c h]
  simp

theorem decString_ws (x : Char) (h : jsonWs x = true) (l : List Char) :
    decString (x :: l) = decString l := by
  unfold decString
  rw [skipWs_cons_ws x h]

theorem decString_encStr (s : String) (rest : List Char) :
    decString (encStr s ++ rest) = some (s.data, rest) := by
  show decString (('"' :: (encChars s.data ++ ['"'])) ++ rest) = _
  simp only [List.cons_append, List.append_assoc, List.singleton_append]
  unfold decString
  rw [skipWs_cons_not '"' (by decide)]
  simp [decStrAux_encChars]

theorem decEntry_ws (x : Char) (h : jsonWs x = true) (l : List Char) :
    decEntry (x :: l) = decEntry l := by
  unfold decEntry
  rw [expectChar_ws _ x h]

theorem decEntry_encEntry (e : Entry) (rest : List Char) :
    decEntry (encEntry e ++ rest) = some (e, rest) := by
  unfold encEntry
  simp only [List.cons_append, List.append_assoc, List.nil_append]
  unfold decEntry
  rw [expectChar_ws _ ' ' (by decide), expectChar_ws _ ' ' (by decide),
    expectChar_self '\x7b' (by decide)]
  simp only [Option.bind_eq_bind, Option.some_bind]
  rw [decString_ws '\n' (by decide), decString_ws ' ' (by decide),
    decString_ws ' ' (by decide), decString_ws ' ' (by decide),
    decString_ws ' ' (by decide), decString_encStr]
  simp only [Option.some_bind, if_pos rfl]
  rw [expectChar_self ':' (by decide)]
  simp only [Option.some_bind]
  rw [decString_ws ' ' (by decide), decString_encStr]
  simp only [Option.some_bind]
  rw [expectChar_self ',' (by decide)]
  simp only [Option.some_bind]
  rw [decString_ws '\n' (by decide), decString_ws ' ' (by decide),
    decString_ws ' ' (by decide), decString_ws ' ' (by decide),
    decString_ws ' ' (by decide), decString_encStr]
  simp only [Option.some_bind, if_pos rfl]
  rw [expectChar_self ':' (by decide)]
  simp only [Option.some_bind]
  rw [decString_ws ' ' (by decide), decString_encStr]
  simp only [Option.some_bind]
  rw [expectChar_ws _ '\n' (by decide), expectChar_ws _ ' ' (by decide),
    expectChar_ws _ ' ' (by decide), expectChar_self '\x7d' (by decide)]
  simp [mk_data]

theorem decMoreEntries_encBody (es : List Entry) (rest : List Char) :
    ∀ fuel, es.length < fuel →
      decMoreEntries fuel (encBody es ++ rest) = some (es, rest) := by
  induction es generalizing rest with
  | nil =>
    intro fuel hf
    cases fuel with
    | zero => omega
    | succ f =>
      show decMoreEntries (f + 1) ('\n' :: ']' :: rest) = _
      simp only [decMoreEntries]
      rw [skipWs_cons_ws '\n' (by decide), skipWs_cons_not ']' (by decide)]
      simp
  | cons e es ih =>
    intro fuel hf
    cases fuel with
    | zero => omega
    | succ f =>
      show decMoreEntries (f + 1)
        ((([',', '\n'] ++ encEntry e) ++ encBody es) ++ rest) = _
      simp only [List.cons_append, List.append_assoc, List.nil_append]
      simp only [decMoreEntries]
      rw [skipWs_cons_not ',' (by decide)]
      have hstep : decEntry ('\n' :: (encEntry e ++ (encBody es ++ rest)))
          = some (e, encBody es ++ rest) := by
        rw [decEntry_ws '\n' (by decide), decEntry_encEntry]
      simp +decide [hstep, ih rest f (by simpa using hf)]

theorem length_le_encBody (es : List Entry) :
    es.length ≤ (encBody es).length := by
  induction es with
  | nil => simp [encBody]
  | cons e es ih =>
    simp only [encBody, List.length_append, List.length_cons, List.length_nil]
    omega

/-- Claim C8: Baseline Store round-trip — parsing the exact file text that
`save_state` writes yields the saved entry list, for arbitrary names and
date texts (non-ASCII characters are written verbatim by the
`ensure_ascii=False` escaping and read back unchanged). -/
theorem c8_round_trip (entries : List Entry) :
    load_state (save_state entries) = entries := by
  cases entries with
  | nil => rfl
  | cons e es =>
    unfold load_state save_state
    show (parseEntries ('[' :: '\n' :: (encEntry e ++ encBody es))).getD []
      = e :: es
    unfold parseEntries
    rw [expectChar_self '[' (by decide)]
    simp only [Option.some_bind]
    have hskip : ∃ tail, skipWs ('\n' :: (encEntry e ++ encBody es))
        = '\x7b' :: tail := by
      simp only [encEntry, List.cons_append, List.append_assoc,
        List.nil_append]
      rw [skipWs_cons_ws '\n' (by decide), skipWs_cons_ws ' ' (by decide),
        skipWs_cons_ws ' ' (by decide), skipWs_cons_not '\x7b' (by decide)]
      exact ⟨_, rfl⟩
    obtain ⟨tail, hskip⟩ := hskip
    have hmore : decMoreEntries ((encBody es).length + 1) (encBody es)
        = some (es, []) := by
      have hlen := length_le_encBody es
      have := decMoreEntries_encBody es [] ((encBody es).length + 1)
        (by omega)
      simpa using this
    have hstep : decEntry ('\n' :: (encEntry e ++ encBody es))
        = some (e, encBody es) := by
      rw [decEntry_ws '\n' (by decide), decEntry_encEntry]
    unfold parseTop
    rw [hskip]
    simp +decide [hstep, hmore, skipWs]

end HotKTbot
